import Mathlib

/-!
Verification development for the slack-appreciation-bot core:
the Points Ledger (`src/services/dataService.ts`) and the
Recognition Parser / Orchestrator (`src/services/recognitionService.ts`).

The TypeScript services are shallowly embedded:
- JS objects used as string-keyed maps (`byValue`, `users`) become
  association lists with unique keys, accessed by `lookup?` / `setKey`
  (property read / property write).
- The current calendar day (`new Date().toISOString().split('T')[0]`)
  is threaded as an explicit `today : String` parameter.
- `Date.now()` timestamps are threaded as an explicit `now : Nat`.
- Durable persistence (`saveState`) is modelled by a `ServiceState`
  carrying the in-memory `AppState` and the last successfully written
  snapshot (`disk`), plus a `saveOk` flag standing for whether
  `fs.promises.writeFile` succeeds; a failed save raises the string
  thrown by the catch block in `saveState`.
- All numbers appearing on the modelled paths are non-negative
  integers (point counts, totals, costs), so they are embedded as `Nat`;
  the one subtraction (`total -= cost` in `redeemReward`) is guarded by
  `cost ≤ total` in the source.
-/

/-- Reward, from `src/types.ts`. -/
structure Reward where
  name : String
  cost : Nat
deriving Repr, DecidableEq

/-- AppConfig, from `src/types.ts`. -/
structure AppConfig where
  dailyLimit : Nat
  values : List String
  rewards : List Reward
deriving Repr, DecidableEq

/-- UserRecord, from `src/types.ts`.  `byValue` is a JS object used as a
string-keyed map, embedded as an association list with unique keys. -/
structure UserRecord where
  total : Nat
  byValue : List (String × Nat)
  dailyGiven : Nat
  lastReset : String
deriving Repr, DecidableEq

/-- AppState, from `src/types.ts`.  `users` is a JS object keyed by user id. -/
structure AppState where
  config : AppConfig
  users : List (String × UserRecord)
deriving Repr, DecidableEq

/-- Recognition, from `src/types.ts`. -/
structure Recognition where
  giver : String
  receiver : String
  reason : String
  value : String
  points : Nat
  timestamp : Nat
deriving Repr, DecidableEq

/-- Property read on a JS object used as a map: `m[k]`, `none` when absent. -/
def lookup? {α : Type} : List (String × α) → String → Option α
  | [], _ => none
  | (k, v) :: rest, key => if k = key then some v else lookup? rest key

/-- Property read with a default value. -/
def getD {α : Type} (m : List (String × α)) (key : String) (d : α) : α :=
  (lookup? m key).getD d

/-- Property write on a JS object used as a map: `m[k] = v` (updates the
existing key in place, otherwise appends a fresh key). -/
def setKey {α : Type} : List (String × α) → String → α → List (String × α)
  | [], key, v => [(key, v)]
  | (k, v0) :: rest, key, v =>
      if k = key then (key, v) :: rest else (k, v0) :: setKey rest key v

/-- Sum of the values of a `byValue` map. -/
def byValueSum (m : List (String × Nat)) : Nat :=
  (m.map Prod.snd).sum

/-- Class `[A-Z0-9]` under the `i` flag: ASCII letter or digit. -/
def isAlnumCI (c : Char) : Bool := c.isAlpha || c.isDigit

/-- Class `[A-Z0-9]` without the `i` flag (the inner extraction regexes in
`parseRecognitions` / `parseRecognitionsWithGroups` are case sensitive). -/
def isUpperDigit (c : Char) : Bool := c.isUpper || c.isDigit

/-- Class `\w`: ASCII letter, digit or underscore. -/
def isWordChar (c : Char) : Bool := c.isAlpha || c.isDigit || c = '_'

/-- Class `\s` at ASCII level. -/
def isWsChar (c : Char) : Bool := c.isWhitespace

/-- Remove a trailing whitespace run. -/
def dropTrailingWs (cs : List Char) : List Char :=
  (cs.reverse.dropWhile isWsChar).reverse

/-- `String.prototype.toLowerCase` at ASCII level, character by character. -/
def toLowerChars (s : List Char) : List Char := s.map Char.toLower

/-- `String.prototype.trim` at ASCII level: strip whitespace from both
ends. -/
def trimChars (s : List Char) : List Char :=
  ((s.dropWhile isWsChar).reverse.dropWhile isWsChar).reverse

/-- The default configuration built by `loadInitialState`
(`dataService.ts` lines 38-48). -/
def defaultConfig : AppConfig :=
  { dailyLimit := 5
    values := ["integrity", "innovation", "teamwork"]
    rewards := [⟨"Coffee Voucher", 50⟩, ⟨"Half-day Off", 100⟩] }

/-- The zero record materialized for an unknown user
(`dataService.ts` lines 160-165). -/
def freshRecord (today : String) : UserRecord :=
  { total := 0, byValue := [], dailyGiven := 0, lastReset := today }

/-- DataService.getReward (`dataService.ts` lines 149-151). -/
def getReward (st : AppState) (name : String) : Option Reward :=
  st.config.rewards.find? (fun r => r.name == name)

/-- DataService.getUserRecord (`dataService.ts` lines 156-169): returns a
copy of the record, materializing a zero record in the store first when the
user is unknown. -/
def getUserRecord (st : AppState) (userId today : String) :
    UserRecord × AppState :=
  match lookup? st.users userId with
  | some r => (r, st)
  | none =>
      let r := freshRecord today
      (r, { st with users := setKey st.users userId r })

/-- DataService.canGivePoints (`dataService.ts` lines 247-257).  The
`getUserRecord` call may materialize a fresh record as a side effect, so the
(possibly updated) state is returned alongside the boolean. -/
def canGivePoints (st : AppState) (userId : String) (points : Nat)
    (today : String) : Bool × AppState :=
  let ur := getUserRecord st userId today
  if ur.1.lastReset ≠ today then (true, ur.2)
  else (decide (ur.1.dailyGiven + points ≤ st.config.dailyLimit), ur.2)

/-- The lazy-creation statement `if (!this.state.users[id]) { this.state.users[id] = {...} }`
used by `recordRecognition` and `resetUserPoints`. -/
def ensureUser (m : List (String × UserRecord)) (k today : String) :
    List (String × UserRecord) :=
  if (lookup? m k).isSome then m else setKey m k (freshRecord today)

/-- The in-memory mutation performed by DataService.recordRecognition
(`dataService.ts` lines 199-241), before the save. -/
def recordRecognition (st : AppState) (rec : Recognition) (today : String) :
    AppState :=
  let users1 := ensureUser st.users rec.giver today
  let g := getD users1 rec.giver (freshRecord today)
  let g1 :=
    if g.lastReset ≠ today then { g with dailyGiven := 0, lastReset := today }
    else g
  let g2 := { g1 with dailyGiven := g1.dailyGiven + rec.points }
  let users2 := setKey users1 rec.giver g2
  let users3 := ensureUser users2 rec.receiver today
  let r := getD users3 rec.receiver (freshRecord today)
  let r1 :=
    { r with
      total := r.total + rec.points
      byValue := setKey r.byValue rec.value
        (getD r.byValue rec.value 0 + rec.points) }
  { st with users := setKey users3 rec.receiver r1 }

/-- The in-memory mutation performed by DataService.resetUserPoints
(`dataService.ts` lines 181-193), before the save. -/
def resetUserPoints (st : AppState) (userId today : String) : AppState :=
  let users1 := ensureUser st.users userId today
  let u := getD users1 userId (freshRecord today)
  let u1 := { u with total := 0, byValue := [], dailyGiven := 0,
                     lastReset := today }
  { st with users := setKey users1 userId u1 }

/-- Service state: the in-memory `AppState` plus the last snapshot that was
successfully written to disk by `saveState`. -/
structure ServiceState where
  mem : AppState
  disk : AppState
deriving Repr, DecidableEq

/-- DataService.saveState (`dataService.ts` lines 54-65) applied after an
in-memory mutation to `memNew`: on success the snapshot is written; on
failure the catch block throws, with the in-memory state already mutated. -/
def withSave (svc : ServiceState) (memNew : AppState) (saveOk : Bool) :
    Except String Unit × ServiceState :=
  if saveOk then (Except.ok (), { mem := memNew, disk := memNew })
  else (Except.error "Failed to save data", { svc with mem := memNew })

/-- DataService.recordRecognition with persistence
(`dataService.ts` lines 199-242). -/
def recordRecognitionP (svc : ServiceState) (rec : Recognition)
    (today : String) (saveOk : Bool) : Except String Unit × ServiceState :=
  withSave svc (recordRecognition svc.mem rec today) saveOk

/-- DataService.resetUserPoints with persistence
(`dataService.ts` lines 181-194). -/
def resetUserPointsP (svc : ServiceState) (userId today : String)
    (saveOk : Bool) : Except String Unit × ServiceState :=
  withSave svc (resetUserPoints svc.mem userId today) saveOk

/-- DataService.redeemReward (`dataService.ts` lines 262-274): early false
returns skip the save; the success path deducts the cost and saves. -/
def redeemRewardP (svc : ServiceState) (userId rewardName today : String)
    (saveOk : Bool) : Except String Bool × ServiceState :=
  match getReward svc.mem rewardName with
  | none => (Except.ok false, svc)
  | some reward =>
      let ur := getUserRecord svc.mem userId today
      if ur.1.total < reward.cost then (Except.ok false, { svc with mem := ur.2 })
      else
        let u := getD ur.2.users userId (freshRecord today)
        let u1 := { u with total := u.total - reward.cost }
        let memNew := { ur.2 with users := setKey ur.2.users userId u1 }
        if saveOk then (Except.ok true, { mem := memNew, disk := memNew })
        else (Except.error "Failed to save data", { svc with mem := memNew })

/-- DataService.setDailyLimit (`dataService.ts` lines 85-88). -/
def setDailyLimitP (svc : ServiceState) (limit : Nat) (saveOk : Bool) :
    Except String Unit × ServiceState :=
  withSave svc { svc.mem with config := { svc.mem.config with dailyLimit := limit } } saveOk

/-- DataService.addValue (`dataService.ts` lines 93-99): saves only when the
normalized value was actually added. -/
def addValueP (svc : ServiceState) (value : String) (saveOk : Bool) :
    Except String Unit × ServiceState :=
  let nv := String.mk (trimChars (toLowerChars value.toList))
  if svc.mem.config.values.contains nv then (Except.ok (), svc)
  else
    withSave svc
      { svc.mem with config :=
          { svc.mem.config with values := svc.mem.config.values ++ [nv] } }
      saveOk

/-- DataService.removeValue (`dataService.ts` lines 104-110). -/
def removeValueP (svc : ServiceState) (value : String) (saveOk : Bool) :
    Except String Unit × ServiceState :=
  let nv := String.mk (trimChars (toLowerChars value.toList))
  withSave svc
    { svc.mem with config :=
        { svc.mem.config with
          values := svc.mem.config.values.filter (fun v => v != nv) } }
    saveOk

/-- Update the cost of the first reward with the given name (the
`findIndex` / index-assignment pair in `addReward`). -/
def setRewardCostFirst : List Reward → String → Nat → List Reward
  | [], _, _ => []
  | r :: rest, name, cost =>
      if r.name = name then { r with cost := cost } :: rest
      else r :: setRewardCostFirst rest name cost

/-- DataService.addReward (`dataService.ts` lines 115-127): updates the cost
of the first reward with that name in place when it exists, otherwise
appends. -/
def addRewardP (svc : ServiceState) (name : String) (cost : Nat)
    (saveOk : Bool) : Except String Unit × ServiceState :=
  let rewards :=
    if (svc.mem.config.rewards.find? (fun r => r.name == name)).isSome then
      setRewardCostFirst svc.mem.config.rewards name cost
    else svc.mem.config.rewards ++ [⟨name, cost⟩]
  withSave svc { svc.mem with config := { svc.mem.config with rewards := rewards } } saveOk

/-- DataService.removeReward (`dataService.ts` lines 132-137). -/
def removeRewardP (svc : ServiceState) (name : String) (saveOk : Bool) :
    Except String Unit × ServiceState :=
  withSave svc
    { svc.mem with config :=
        { svc.mem.config with
          rewards := svc.mem.config.rewards.filter (fun r => r.name != name) } }
    saveOk

/-- DataService.resetRewards (`dataService.ts` lines 316-319). -/
def resetRewardsP (svc : ServiceState) (saveOk : Bool) :
    Except String Unit × ServiceState :=
  withSave svc { svc.mem with config := { svc.mem.config with rewards := [] } } saveOk

/-- DataService.resetValues (`dataService.ts` lines 324-328). -/
def resetValuesP (svc : ServiceState) (saveOk : Bool) :
    Except String Unit × ServiceState :=
  withSave svc
    { svc.mem with config :=
        { svc.mem.config with
          values := ["integrity", "innovation", "teamwork"] } }
    saveOk

/-!
Recognition parser embedding.

The parser is regex-driven in the source.  Each regex is embedded as a
character-level matcher reproducing the JS backtracking semantics on the
relevant constructs, noted inline.  Character classes are read at ASCII
level (`\s` as `Char.isWhitespace`, `\w` as letter, digit or underscore,
`[A-Z0-9]` under the `i` flag as letter or digit).
-/

/-- Result of one match of the single-recognition regex
`/<@([A-Z0-9]+)>\s*(\+{1,})\s*(.*?)(?:\s*#(\w+))?$/i`
(`recognitionService.ts` line 20): the four capture groups. -/
structure SingleMatch where
  receiverId : List Char
  plusCount : Nat
  reasonText : List Char
  valueTag : Option (List Char)
deriving Repr, DecidableEq

/-- Split of the text after the `+` run and following whitespace, per
`(.*?)(?:\s*#(\w+))?$`: the optional group is preferred and the reason is
lazy, so a tag is captured exactly when the text ends in `#` followed by a
nonempty run of word characters (necessarily at the last `#`, as `\w`
excludes `#`); the lazy reason then stops before the whitespace run
preceding that `#`. -/
def tagSplit (rest : List Char) : Option (List Char × List Char) :=
  let rev := rest.reverse
  let w := rev.takeWhile isWordChar
  if w.isEmpty then none
  else
    match rev.drop w.length with
    | '#' :: preRev => some (preRev.reverse, w.reverse)
    | _ => none

/-- Attempt of the single-recognition regex at one start position.
`[A-Z0-9]+` and `\+{1,}` are greedy; shrinking them only moves characters
into the lazy reason and cannot turn a failure into a success (the only
failure mode past the `+` run is a newline inside the reason, which `.`
cannot match, and which survives any such shift), so they are taken
maximal. -/
def matchSingleAt (cs : List Char) : Option SingleMatch :=
  match cs with
  | '<' :: '@' :: rest1 =>
      let rid := rest1.takeWhile isAlnumCI
      if rid.isEmpty then none
      else
        match rest1.drop rid.length with
        | '>' :: rest2 =>
            let rest3 := rest2.dropWhile isWsChar
            let plus := rest3.takeWhile (fun c => c = '+')
            if plus.isEmpty then none
            else
              let rest4 := (rest3.drop plus.length).dropWhile isWsChar
              match tagSplit rest4 with
              | some (pre, tag) =>
                  let reasonText := dropTrailingWs pre
                  if reasonText.contains '\n' then
                    -- `.` cannot match a newline, and the no-tag
                    -- alternative needs the whole rest newline free,
                    -- which the reason prefix already violates.
                    none
                  else some ⟨rid, plus.length, reasonText, some tag⟩
              | none =>
                  if rest4.contains '\n' then none
                  else some ⟨rid, plus.length, rest4, none⟩
        | _ => none
  | _ => none

/-- Leftmost-match search of `String.prototype.match` with a non-global
regex: the first start position at which the pattern matches. -/
def findSingleMatch : List Char → Option SingleMatch
  | [] => none
  | c :: rest =>
      match matchSingleAt (c :: rest) with
      | some m => some m
      | none => findSingleMatch rest

/-- RecognitionService.parseRecognition
(`recognitionService.ts` lines 18-50). -/
def parseRecognition (cfg : AppConfig) (text giverId : String) (now : Nat) :
    Option Recognition :=
  match findSingleMatch text.toList with
  | none => none
  | some m =>
      let reason := String.mk (trimChars m.reasonText)
      if reason = "" && m.valueTag.isNone then none
      else
        let value :=
          match m.valueTag with
          | some t => String.mk (trimChars (toLowerChars t))
          | none => "general"
        if reason.length = 0 then none
        else
          let receiverId := String.mk m.receiverId
          if receiverId = giverId then none
          else if ¬ cfg.values.contains value && value ≠ "general" then none
          else some ⟨giverId, receiverId, reason, value, m.plusCount, now⟩

/-!
Multi-recognition regexes
(`recognitionService.ts` lines 54 and 107):
`/((?:<@[A-Z0-9]+>)+)\s*(\+{1,})\s*([^<#]+?)(?:#(\w+))?(?=\s*(?:<@)|$)/gi`
and its group-aware variant, which adds `<!subteam\^[A-Z0-9]+>` to the
mention-group alternation and to the lookahead.  The `allowSubteam` flag
selects between the two.
-/

/-- One target token of the mention group; a subteam token also keeps the
raw characters matched for the caseless literal `subteam`, because the
inner extraction regexes are case sensitive. -/
inductive Tok where
  | user (id : List Char)
  | subteam (lit : List Char) (id : List Char)
deriving Repr, DecidableEq

/-- Parse one `<@[A-Z0-9]+>` token (with the `i` flag): identifier, rest,
characters consumed. -/
def parseMentionTok (cs : List Char) : Option (List Char × List Char × Nat) :=
  match cs with
  | '<' :: '@' :: rest =>
      let rid := rest.takeWhile isAlnumCI
      if rid.isEmpty then none
      else
        match rest.drop rid.length with
        | '>' :: rest2 => some (rid, rest2, rid.length + 3)
        | _ => none
  | _ => none

/-- Parse one `<!subteam\^[A-Z0-9]+>` token (with the `i` flag): the raw
characters of the caseless `subteam` literal, the identifier, the rest and
the characters consumed. -/
def parseSubteamTok (cs : List Char) :
    Option (List Char × List Char × List Char × Nat) :=
  match cs with
  | '<' :: '!' :: rest =>
      let lit := rest.take 7
      if lit.map Char.toLower = ['s', 'u', 'b', 't', 'e', 'a', 'm'] then
        match rest.drop 7 with
        | '^' :: rest2 =>
            let rid := rest2.takeWhile isAlnumCI
            if rid.isEmpty then none
            else
              match rest2.drop rid.length with
              | '>' :: rest3 => some (lit, rid, rest3, rid.length + 11)
              | _ => none
        | _ => none
      else none
  | _ => none

/-- Parse one token of the mention-group alternation; the user alternative
is listed first in both regexes (the first characters differ anyway). -/
def parseTok (allowSubteam : Bool) (cs : List Char) :
    Option (Tok × List Char × Nat) :=
  match parseMentionTok cs with
  | some (rid, rest, c) => some (.user rid, rest, c)
  | none =>
      if allowSubteam then
        match parseSubteamTok cs with
        | some (lit, rid, rest, c) => some (.subteam lit rid, rest, c)
        | none => none
      else none

/-- The mention group `(?:tok)+`: one or more consecutive tokens, greedy.
Backtracking to fewer tokens can never help: the dropped token starts with
`<`, which neither `\\s*` nor `\\+` can consume, so only the maximal run is
semantic.  Recursion is fuelled by the input length, which always
suffices: every token consumes at least four characters. -/
def parseTokGroupAux (allow : Bool) : Nat → List Char → Option (List Tok × List Char × Nat)
  | 0, _ => none
  | fuel + 1, cs =>
      match parseTok allow cs with
      | none => none
      | some (t, rest, c) =>
          match parseTokGroupAux allow fuel rest with
          | none => some ([t], rest, c)
          | some (ts, rest2, c2) => some (t :: ts, rest2, c + c2)

def parseTokGroup (allow : Bool) (cs : List Char) :
    Option (List Tok × List Char × Nat) :=
  parseTokGroupAux allow cs.length cs

/-- The lookahead `(?=\s*(?:<@)|$)` (with `<!subteam\^` added in the
group-aware variant): end of input, or a whitespace run followed by the
opening of a target token.  Inside the lookahead a shorter `\s*` leaves a
whitespace character where `<` is required, so only the maximal run needs
to be tested. -/
def lookaheadOk (allow : Bool) (r : List Char) : Bool :=
  r.isEmpty ||
    (let r1 := r.dropWhile isWsChar
     (match r1 with
      | '<' :: '@' :: _ => true
      | _ => false) ||
     (allow &&
      match r1 with
      | '<' :: '!' :: r2 =>
          decide ((r2.take 7).map Char.toLower =
            ['s', 'u', 'b', 't', 'e', 'a', 'm'] ∧ r2.drop 7 ≠ [] ∧
            (r2.drop 7).head? = some '^')
      | _ => false))

/-- At a fixed end of the lazy reason, the engine first tries the optional
`(?:#(\w+))?` with the group present, then with it absent.  `\w+` is
greedy; a shortened tag leaves a word character at the lookahead, which
fails, so only the full terminal word run is tested.  Returns the captured
tag and the extra characters consumed. -/
def tryTagOrLook (allow : Bool) (s : List Char) :
    Option (Option (List Char) × Nat) :=
  match s with
  | '#' :: s1 =>
      let w := s1.takeWhile isWordChar
      if ¬ w.isEmpty && lookaheadOk allow (s1.drop w.length) then
        some (some w, 1 + w.length)
      else if lookaheadOk allow s then some (none, 0)
      else none
  | _ => if lookaheadOk allow s then some (none, 0) else none

/-- The tail `([^<#]+?)(?:#(\w+))?(?=...)`: the lazy reason takes one
character (not `<` or `#`) at a time, testing the tag/lookahead after each
extension, shortest first.  Returns reason, tag and characters consumed. -/
def unitTail (allow : Bool) : List Char → Option (List Char × Option (List Char) × Nat)
  | [] => none
  | c :: rest =>
      if c = '<' || c = '#' then none
      else
        match tryTagOrLook allow rest with
        | some (tag, extra) => some ([c], tag, 1 + extra)
        | none =>
            match unitTail allow rest with
            | some (reason, tag, consumed) => some (c :: reason, tag, consumed + 1)
            | none => none

/-- Backtracking of the `\s*` between the `+` run and the reason: the
greedy whitespace run is tried first, then shortened one character at a
time (a shorter run lets the lazy reason start inside the whitespace). -/
def wsDescend (allow : Bool) (s : List Char) :
    Nat → Option (List Char × Option (List Char) × Nat)
  | 0 => unitTail allow s
  | w + 1 =>
      match unitTail allow (s.drop (w + 1)) with
      | some (reason, tag, c) => some (reason, tag, c + (w + 1))
      | none => wsDescend allow s w

/-- Run `wsDescend` from the maximal whitespace run. -/
def afterPlusWs (allow : Bool) (s : List Char) :
    Option (List Char × Option (List Char) × Nat) :=
  wsDescend allow s (s.takeWhile isWsChar).length

/-- Backtracking of the greedy `(\+{1,})`: the full `+` run is tried
first, then shortened down to one (leftover `+` characters are then read
by the lazy reason, `+` not being `<` or `#`).  `rest2` starts at the `+`
run; returns the captured plus count, reason, tag and characters consumed
from `rest2`. -/
def plusDescend (allow : Bool) (rest2 : List Char) :
    Nat → Option (Nat × List Char × Option (List Char) × Nat)
  | 0 => none
  | p + 1 =>
      match afterPlusWs allow (rest2.drop (p + 1)) with
      | some (reason, tag, c) => some (p + 1, reason, tag, (p + 1) + c)
      | none => plusDescend allow rest2 p

/-- One match of the multi-recognition regex: capture groups plus total
characters consumed. -/
structure MultiMatch where
  toks : List Tok
  plusCount : Nat
  reasonText : List Char
  valueTag : Option (List Char)
  consumed : Nat
deriving Repr, DecidableEq

/-- Attempt of the multi-recognition regex at one start position.  The
`\s*` after the mention group cannot usefully backtrack (a whitespace
character is never `+`), so it is taken maximal. -/
def matchMultiAt (allow : Bool) (cs : List Char) : Option MultiMatch :=
  match parseTokGroup allow cs with
  | none => none
  | some (toks, rest1, c1) =>
      let ws1 := rest1.takeWhile isWsChar
      let rest2 := rest1.drop ws1.length
      let m := (rest2.takeWhile (fun c => c = '+')).length
      match plusDescend allow rest2 m with
      | none => none
      | some (p, reason, tag, c2) =>
          some ⟨toks, p, reason, tag, c1 + ws1.length + c2⟩

/-- `matchAll` with the `g` flag: scan left to right, restarting after the
end of each match.  Every match consumes at least one character (a mention
token is at least four), so resuming at `rest.drop (u.consumed - 1)`
equals resuming at the character after the match.  Recursion is fuelled by
the input length, which always suffices since the list shrinks by at least
one character per step. -/
def scanMultiAux (allow : Bool) : Nat → List Char → List MultiMatch
  | 0, _ => []
  | _, [] => []
  | fuel + 1, c :: rest =>
      match matchMultiAt allow (c :: rest) with
      | some u => u :: scanMultiAux allow fuel (rest.drop (u.consumed - 1))
      | none => scanMultiAux allow fuel rest

def scanMulti (allow : Bool) (cs : List Char) : List MultiMatch :=
  scanMultiAux allow cs.length cs

/-- The inner extraction `/<@([A-Z0-9]+)>/g` over the raw mention group
(`recognitionService.ts` line 62, and line 117 in the group-aware parser):
case sensitive, so a mention whose id was matched caselessly by the outer
regex is extracted only when every id character is an upper-case letter or
digit; a partially matching id yields nothing. -/
def extractUserIds (toks : List Tok) : List (List Char) :=
  toks.filterMap fun t =>
    match t with
    | .user rid => if rid.all isUpperDigit then some rid else none
    | .subteam _ _ => none

/-- The inner extraction `/<!subteam\^([A-Z0-9]+)>/g`
(`recognitionService.ts` line 118): case sensitive, so the `subteam`
literal must have been written in lower case and the id in upper-case
letters and digits. -/
def extractGroupIds (toks : List Tok) : List (List Char) :=
  toks.filterMap fun t =>
    match t with
    | .user _ => none
    | .subteam lit rid =>
        if lit = ['s', 'u', 'b', 't', 'e', 'a', 'm'] && rid.all isUpperDigit
        then some rid else none

/-- The per-receiver loop body shared by `parseRecognitions` (lines 65-85)
and `parseRecognitionsWithGroups` (lines 128-147): skip the giver, trim
the reason, resolve the value (lower-cased and trimmed tag, defaulting to
`general`), drop the receiver when the tag is neither a configured value
nor `general`, and otherwise emit the candidate. -/
def emitUnit (cfg : AppConfig) (giverId : String) (now : Nat)
    (mentionedUsers : List String) (plusCount : Nat) (reasonText : List Char)
    (valueTag : Option (List Char)) : List Recognition :=
  mentionedUsers.filterMap fun receiverId =>
    if receiverId = giverId then none
    else
      let reason := String.mk (trimChars reasonText)
      let value :=
        match valueTag with
        | some t => String.mk (trimChars (toLowerChars t))
        | none => "general"
      if value ≠ "general" && ¬ cfg.values.contains value then none
      else some ⟨giverId, receiverId, reason, value, plusCount, now⟩

/-- RecognitionService.parseRecognitions
(`recognitionService.ts` lines 52-89).  The `getConfig()` read inside the
loop always returns the same configuration, passed here as `cfg`. -/
def parseRecognitions (cfg : AppConfig) (text giverId : String) (now : Nat) :
    List Recognition :=
  (scanMulti false text.toList).flatMap fun u =>
    emitUnit cfg giverId now ((extractUserIds u.toks).map String.mk)
      u.plusCount u.reasonText u.valueTag

/-- RecognitionService.parseRecognitionsWithGroups
(`recognitionService.ts` lines 105-151).  `resolve` models the injected
`resolveGroupMembers` lookup (an empty list on failure); only the first
group id of a unit is resolved, and individual mentions take precedence. -/
def parseRecognitionsWithGroups (cfg : AppConfig) (text giverId : String)
    (resolve : String → List String) (now : Nat) : List Recognition :=
  (scanMulti true text.toList).flatMap fun u =>
    let userM := (extractUserIds u.toks).map String.mk
    let groupM := (extractGroupIds u.toks).map String.mk
    let mentionedUsers :=
      if ¬ userM.isEmpty then userM
      else
        match groupM with
        | g :: _ => resolve g
        | [] => []
    emitUnit cfg giverId now mentionedUsers u.plusCount u.reasonText u.valueTag

/-- The accept loop of RecognitionService.processRecognitions
(`recognitionService.ts` lines 174-181): re-check `canGivePoints` for each
candidate in order, drop denied ones, record and collect accepted ones.  A
failing save inside `recordRecognition` propagates, discarding the list
collected so far. -/
def processList (giverId today : String) (saveOk : Bool) :
    ServiceState → List Recognition → Except String (List Recognition) × ServiceState
  | svc, [] => (Except.ok [], svc)
  | svc, r :: rs =>
      let can := canGivePoints svc.mem giverId r.points today
      let svc1 := { svc with mem := can.2 }
      if ¬ can.1 then processList giverId today saveOk svc1 rs
      else
        match recordRecognitionP svc1 r today saveOk with
        | (Except.error e, svc2) => (Except.error e, svc2)
        | (Except.ok _, svc2) =>
            match processList giverId today saveOk svc2 rs with
            | (Except.ok acc, svc3) => (Except.ok (r :: acc), svc3)
            | (Except.error e, svc3) => (Except.error e, svc3)

/-- RecognitionService.processRecognitions
(`recognitionService.ts` lines 170-184). -/
def processRecognitions (svc : ServiceState) (text giverId today : String)
    (now : Nat) (saveOk : Bool) :
    Except String (List Recognition) × ServiceState :=
  processList giverId today saveOk svc
    (parseRecognitions svc.mem.config text giverId now)

/-!
Association-list lemmas and the UserRecord invariant.
-/

theorem lookup_setKey_self {α : Type} (m : List (String × α)) (k : String)
    (v : α) : lookup? (setKey m k v) k = some v := by
  induction m with
  | nil => simp [setKey, lookup?]
  | cons p rest ih =>
      obtain ⟨k0, v0⟩ := p
      by_cases h : k0 = k
      · simp [setKey, lookup?, h]
      · simp [setKey, lookup?, h, ih]

theorem lookup_setKey_ne {α : Type} (m : List (String × α)) {k k2 : String}
    (h : k2 ≠ k) (v : α) : lookup? (setKey m k v) k2 = lookup? m k2 := by
  induction m with
  | nil => simp [setKey, lookup?, Ne.symm h]
  | cons p rest ih =>
      obtain ⟨k0, v0⟩ := p
      by_cases h0 : k0 = k
      · subst h0
        simp [setKey, lookup?, Ne.symm h]
      · simp [setKey, lookup?, h0, ih]

theorem lookup_mem {α : Type} {m : List (String × α)} {k : String} {v : α}
    (h : lookup? m k = some v) : (k, v) ∈ m := by
  induction m with
  | nil => simp [lookup?] at h
  | cons p rest ih =>
      obtain ⟨k0, v0⟩ := p
      by_cases h0 : k0 = k
      · subst h0
        simp [lookup?] at h
        simp [h]
      · simp [lookup?, h0] at h
        exact List.mem_cons_of_mem _ (ih h)

theorem mem_setKey {α : Type} {m : List (String × α)} {k : String} {v : α}
    {p : String × α} (hp : p ∈ setKey m k v) : p ∈ m ∨ p.2 = v := by
  induction m with
  | nil =>
      simp [setKey] at hp
      simp [hp]
  | cons q rest ih =>
      obtain ⟨k0, v0⟩ := q
      by_cases h0 : k0 = k
      · simp [setKey, h0] at hp
        rcases hp with hp | hp
        · simp [hp]
        · exact Or.inl (List.mem_cons_of_mem _ hp)
      · simp [setKey, h0] at hp
        rcases hp with hp | hp
        · simp [hp]
        · rcases ih hp with h | h
          · exact Or.inl (List.mem_cons_of_mem _ h)
          · exact Or.inr h

theorem byValueSum_setKey (m : List (String × Nat)) (k : String) (p : Nat) :
    byValueSum (setKey m k (getD m k 0 + p)) = byValueSum m + p := by
  induction m with
  | nil => simp [setKey, byValueSum, getD, lookup?]
  | cons q rest ih =>
      obtain ⟨k0, v0⟩ := q
      by_cases h0 : k0 = k
      · subst h0
        simp [setKey, byValueSum, getD, lookup?]
        omega
      · have hgd : getD ((k0, v0) :: rest) k 0 = getD rest k 0 := by
          simp [getD, lookup?, h0]
        simp [setKey, h0, byValueSum, hgd] at ih ⊢
        omega

/-- The UserRecord invariant from the spec: the lifetime total equals the
sum of the per-value totals. -/
def recInv (u : UserRecord) : Prop := u.total = byValueSum u.byValue

instance (u : UserRecord) : Decidable (recInv u) := by
  unfold recInv
  infer_instance

theorem recInv_fresh (today : String) : recInv (freshRecord today) := by
  simp [recInv, freshRecord, byValueSum]

theorem getD_recInv {m : List (String × UserRecord)}
    (hm : ∀ p ∈ m, recInv p.2) (k : String) {d : UserRecord} (hd : recInv d) :
    recInv (getD m k d) := by
  unfold getD
  cases h : lookup? m k with
  | none => simpa using hd
  | some v => simpa using hm _ (lookup_mem h)

theorem setKey_recInv {m : List (String × UserRecord)}
    (hm : ∀ p ∈ m, recInv p.2) (k : String) {v : UserRecord} (hv : recInv v) :
    ∀ p ∈ setKey m k v, recInv p.2 := by
  intro p hp
  rcases mem_setKey hp with h | h
  · exact hm _ h
  · rw [h]
    exact hv

theorem ensure_user_inv {m : List (String × UserRecord)}
    (hm : ∀ p ∈ m, recInv p.2) (k today : String) :
    ∀ p ∈ ensureUser m k today, recInv p.2 := by
  unfold ensureUser
  split
  · exact hm
  · exact setKey_recInv hm k (recInv_fresh today)

theorem recInv_rollover {u : UserRecord} (h : recInv u) (today : String) :
    recInv (if u.lastReset ≠ today
            then { u with dailyGiven := 0, lastReset := today } else u) := by
  split
  · exact h
  · exact h

theorem recInv_dailyBump {u : UserRecord} (h : recInv u) (p : Nat) :
    recInv { u with dailyGiven := u.dailyGiven + p } := h

theorem recInv_award {u : UserRecord} (h : recInv u) (v : String) (p : Nat) :
    recInv { u with total := u.total + p,
                    byValue := setKey u.byValue v (getD u.byValue v 0 + p) } := by
  unfold recInv at h ⊢
  show u.total + p = byValueSum (setKey u.byValue v (getD u.byValue v 0 + p))
  rw [byValueSum_setKey]
  omega

theorem recordRecognition_preserves_inv (st : AppState) (rec : Recognition)
    (today : String) (hm : ∀ p ∈ st.users, recInv p.2) :
    ∀ p ∈ (recordRecognition st rec today).users, recInv p.2 := by
  unfold recordRecognition
  dsimp only
  have h1 := ensure_user_inv hm rec.giver today
  have h2 := setKey_recInv h1 rec.giver
    (recInv_dailyBump
      (recInv_rollover (getD_recInv h1 rec.giver (recInv_fresh today)) today)
      rec.points)
  have h3 := ensure_user_inv h2 rec.receiver today
  exact setKey_recInv h3 rec.receiver
    (recInv_award (getD_recInv h3 rec.receiver (recInv_fresh today)) rec.value rec.points)

theorem resetUserPoints_preserves_inv (st : AppState) (uid today : String)
    (hm : ∀ p ∈ st.users, recInv p.2) :
    ∀ p ∈ (resetUserPoints st uid today).users, recInv p.2 := by
  unfold resetUserPoints
  dsimp only
  have h1 := ensure_user_inv hm uid today
  refine setKey_recInv h1 uid ?_
  simp [recInv, byValueSum]

theorem getUserRecord_preserves_inv (st : AppState) (uid today : String)
    (hm : ∀ p ∈ st.users, recInv p.2) :
    ∀ p ∈ (getUserRecord st uid today).2.users, recInv p.2 := by
  unfold getUserRecord
  cases h : lookup? st.users uid with
  | some r => exact hm
  | none => exact setKey_recInv hm uid (recInv_fresh today)

theorem redeemReward_success_record {svc : ServiceState}
    {uid n today : String} {saveOk : Bool} {rw : Reward} {r : UserRecord}
    (h1 : getReward svc.mem n = some rw)
    (h2 : lookup? svc.mem.users uid = some r) (h3 : rw.cost ≤ r.total) :
    lookup? (redeemRewardP svc uid n today saveOk).2.mem.users uid =
      some { r with total := r.total - rw.cost } := by
  unfold redeemRewardP
  rw [h1]
  unfold getUserRecord
  rw [h2]
  dsimp only
  rw [if_neg (by omega)]
  unfold getD
  rw [h2]
  split
  · exact lookup_setKey_self _ _ _
  · exact lookup_setKey_self _ _ _

/-- Claim C1, counterexample: a successful `redeemReward` deducts the cost
from `total` but leaves `byValue` untouched, so it does not preserve the
invariant `total = sum(byValue)`.  Here a user with `total = 50` and
`byValue = {teamwork: 50}` redeems the 50-point Coffee Voucher: the call
returns true and the resulting record has `total = 0` while the `byValue`
sum is still 50. -/
theorem ledgerInvariant_redeem_counterexample :
    recInv (⟨50, [("teamwork", 50)], 0, "2026-10-11"⟩ : UserRecord) ∧
    (redeemRewardP
        ⟨⟨defaultConfig, [("UAAA", ⟨50, [("teamwork", 50)], 0, "2026-10-11"⟩)]⟩,
         ⟨defaultConfig, []⟩⟩
        "UAAA" "Coffee Voucher" "2026-10-11" true).1 = Except.ok true ∧
    lookup?
      (redeemRewardP
        ⟨⟨defaultConfig, [("UAAA", ⟨50, [("teamwork", 50)], 0, "2026-10-11"⟩)]⟩,
         ⟨defaultConfig, []⟩⟩
        "UAAA" "Coffee Voucher" "2026-10-11" true).2.mem.users "UAAA" =
      some ⟨0, [("teamwork", 50)], 0, "2026-10-11"⟩ ∧
    ¬ recInv (⟨0, [("teamwork", 50)], 0, "2026-10-11"⟩ : UserRecord) := by
  exact ⟨by decide, rfl, rfl, by decide⟩

/-- Claim C1, amended: the invariant `total = sum(byValue)` holds for the
lazily created zero record and is preserved by `recordRecognition`,
`resetUserPoints` and the materialization side effect of `getUserRecord`;
`redeemReward` does not preserve it: a successful redemption leaves the
user's `byValue` unchanged while lowering `total` by the reward's cost. -/
theorem ledgerInvariant_amended :
    (∀ today : String, recInv (freshRecord today)) ∧
    (∀ (st : AppState) (rec : Recognition) (today : String),
      (∀ p ∈ st.users, recInv p.2) →
      ∀ p ∈ (recordRecognition st rec today).users, recInv p.2) ∧
    (∀ (st : AppState) (uid today : String),
      (∀ p ∈ st.users, recInv p.2) →
      ∀ p ∈ (resetUserPoints st uid today).users, recInv p.2) ∧
    (∀ (st : AppState) (uid today : String),
      (∀ p ∈ st.users, recInv p.2) →
      ∀ p ∈ (getUserRecord st uid today).2.users, recInv p.2) ∧
    (∀ (svc : ServiceState) (uid n today : String) (saveOk : Bool)
       (rw : Reward) (r : UserRecord),
      getReward svc.mem n = some rw →
      lookup? svc.mem.users uid = some r → rw.cost ≤ r.total →
      lookup? (redeemRewardP svc uid n today saveOk).2.mem.users uid =
        some { r with total := r.total - rw.cost }) :=
  ⟨recInv_fresh, recordRecognition_preserves_inv, resetUserPoints_preserves_inv,
   getUserRecord_preserves_inv,
   fun _ _ _ _ _ _ _ h1 h2 h3 => redeemReward_success_record h1 h2 h3⟩

/-- Witness for `ledgerInvariant_amended` at concrete inputs. -/
theorem ledgerInvariant_amended_witness :
    (∀ p ∈ (recordRecognition ⟨defaultConfig, []⟩
        ⟨"UGGG", "UAAA", "nice", "general", 3, 0⟩ "2026-10-11").users,
      recInv p.2) ∧
    lookup?
      (redeemRewardP
        ⟨⟨defaultConfig, [("UAAA", ⟨50, [("teamwork", 50)], 0, "2026-10-11"⟩)]⟩,
         ⟨defaultConfig, []⟩⟩
        "UAAA" "Coffee Voucher" "2026-10-11" true).2.mem.users "UAAA" =
      some ⟨0, [("teamwork", 50)], 0, "2026-10-11"⟩ :=
  ⟨ledgerInvariant_amended.2.1 _ _ _ (by decide),
   ledgerInvariant_amended.2.2.2.2 _ _ "Coffee Voucher" _ true
     ⟨"Coffee Voucher", 50⟩ ⟨50, [("teamwork", 50)], 0, "2026-10-11"⟩
     (by decide) (by decide) (by decide)⟩

theorem lookup_setKey {α : Type} (m : List (String × α)) (k : String) (v : α)
    (u : String) :
    lookup? (setKey m k v) u = if u = k then some v else lookup? m u := by
  by_cases h : u = k
  · subst h
    simp [lookup_setKey_self]
  · simp [h, lookup_setKey_ne m h]

theorem lookup_ensureUser (m : List (String × UserRecord))
    (k today u : String) :
    lookup? (ensureUser m k today) u =
      if u = k then some (getD m k (freshRecord today)) else lookup? m u := by
  unfold ensureUser
  cases hk : lookup? m k with
  | some v =>
      simp only [hk, Option.isSome_some, if_true]
      by_cases h : u = k
      · subst h
        simp [hk, getD, Option.getD]
      · simp [h]
  | none =>
      simp only [hk, Option.isSome_none, Bool.false_eq_true, if_false]
      rw [lookup_setKey]
      by_cases h : u = k
      · subst h
        simp [getD, hk]
      · simp [h]

theorem getD_eq_of_lookup {α : Type} {m : List (String × α)} {k : String}
    {v : α} (h : lookup? m k = some v) (d : α) : getD m k d = v := by
  unfold getD
  rw [h]
  rfl

theorem getD_ensureUser_self (m : List (String × UserRecord))
    (k today : String) :
    getD (ensureUser m k today) k (freshRecord today) =
      getD m k (freshRecord today) := by
  unfold getD
  rw [lookup_ensureUser, if_pos rfl]
  rfl

theorem getD_ensureUser_ne (m : List (String × UserRecord))
    {k u : String} (h : u ≠ k) (today : String) (d : UserRecord) :
    getD (ensureUser m k today) u d = getD m u d := by
  unfold getD
  rw [lookup_ensureUser, if_neg h]

theorem getD_setKey_ne {α : Type} (m : List (String × α)) {k u : String}
    (h : u ≠ k) (v : α) (d : α) : getD (setKey m k v) u d = getD m u d := by
  unfold getD
  rw [lookup_setKey, if_neg h]

theorem recordRecognition_giver_lookup (st : AppState) (rec : Recognition)
    (today : String) (hne : rec.giver ≠ rec.receiver) :
    lookup? (recordRecognition st rec today).users rec.giver =
      some { getD st.users rec.giver (freshRecord today) with
             dailyGiven :=
               (if (getD st.users rec.giver (freshRecord today)).lastReset ≠ today
                then 0
                else (getD st.users rec.giver (freshRecord today)).dailyGiven) +
                 rec.points,
             lastReset := today } := by
  unfold recordRecognition
  dsimp only
  rw [lookup_setKey, if_neg hne, lookup_ensureUser, if_neg hne, lookup_setKey,
    if_pos rfl, getD_ensureUser_self]
  generalize getD st.users rec.giver (freshRecord today) = A
  by_cases hs : A.lastReset ≠ today
  · rw [if_pos hs, if_pos hs]
  · rw [if_neg hs, if_neg hs]
    have ht : A.lastReset = today := not_not.mp hs
    rw [← ht]

theorem recordRecognition_receiver_lookup (st : AppState) (rec : Recognition)
    (today : String) (hne : rec.giver ≠ rec.receiver) :
    lookup? (recordRecognition st rec today).users rec.receiver =
      some { getD st.users rec.receiver (freshRecord today) with
             total := (getD st.users rec.receiver (freshRecord today)).total +
               rec.points,
             byValue :=
               setKey (getD st.users rec.receiver (freshRecord today)).byValue
                 rec.value
                 (getD (getD st.users rec.receiver (freshRecord today)).byValue
                   rec.value 0 + rec.points) } := by
  unfold recordRecognition
  dsimp only
  rw [lookup_setKey, if_pos rfl, getD_ensureUser_self,
    getD_setKey_ne _ (Ne.symm hne), getD_ensureUser_ne _ (Ne.symm hne)]

theorem recordRecognition_frame (st : AppState) (rec : Recognition)
    (today : String) (u : String) (hg : u ≠ rec.giver)
    (hr : u ≠ rec.receiver) :
    lookup? (recordRecognition st rec today).users u = lookup? st.users u := by
  unfold recordRecognition
  dsimp only
  rw [lookup_setKey, if_neg hr, lookup_ensureUser, if_neg hr, lookup_setKey,
    if_neg hg, lookup_ensureUser, if_neg hg]

/-- Claim C2: for a recognition with distinct giver and receiver,
`recordRecognition` lazily creates missing records, rolls the giver's
daily window over to today before adding the points, adds the points to
the receiver's `total` and `byValue[value]`, changes nothing else, and
persists the full resulting snapshot. -/
theorem recordRecognition_full_spec (svc : ServiceState) (rec : Recognition)
    (today : String) (hne : rec.giver ≠ rec.receiver) :
    (recordRecognitionP svc rec today true).1 = Except.ok () ∧
    lookup? (recordRecognitionP svc rec today true).2.mem.users rec.giver =
      some { getD svc.mem.users rec.giver (freshRecord today) with
             dailyGiven :=
               (if (getD svc.mem.users rec.giver (freshRecord today)).lastReset ≠ today
                then 0
                else (getD svc.mem.users rec.giver (freshRecord today)).dailyGiven) +
                 rec.points,
             lastReset := today } ∧
    lookup? (recordRecognitionP svc rec today true).2.mem.users rec.receiver =
      some { getD svc.mem.users rec.receiver (freshRecord today) with
             total := (getD svc.mem.users rec.receiver (freshRecord today)).total +
               rec.points,
             byValue :=
               setKey (getD svc.mem.users rec.receiver (freshRecord today)).byValue
                 rec.value
                 (getD (getD svc.mem.users rec.receiver (freshRecord today)).byValue
                   rec.value 0 + rec.points) } ∧
    (∀ u : String, u ≠ rec.giver → u ≠ rec.receiver →
      lookup? (recordRecognitionP svc rec today true).2.mem.users u =
        lookup? svc.mem.users u) ∧
    (recordRecognitionP svc rec today true).2.mem.config = svc.mem.config ∧
    (recordRecognitionP svc rec today true).2.disk =
      (recordRecognitionP svc rec today true).2.mem :=
  ⟨rfl, recordRecognition_giver_lookup svc.mem rec today hne,
   recordRecognition_receiver_lookup svc.mem rec today hne,
   fun u hg hr => recordRecognition_frame svc.mem rec today u hg hr,
   rfl, rfl⟩

/-- Witness for `recordRecognition_full_spec`: a concrete recognition of 3
points lands on the receiver's total and value bucket and the giver's
daily counter. -/
theorem recordRecognition_full_spec_witness :
    lookup?
      (recordRecognitionP ⟨⟨defaultConfig, []⟩, ⟨defaultConfig, []⟩⟩
        ⟨"UGGG", "UAAA", "nice", "teamwork", 3, 0⟩ "2026-10-11" true).2.mem.users
      "UAAA" =
      some { getD ([] : List (String × UserRecord)) "UAAA" (freshRecord "2026-10-11") with
             total := (getD ([] : List (String × UserRecord)) "UAAA" (freshRecord "2026-10-11")).total + 3,
             byValue :=
               setKey (getD ([] : List (String × UserRecord)) "UAAA" (freshRecord "2026-10-11")).byValue
                 "teamwork"
                 (getD (getD ([] : List (String × UserRecord)) "UAAA" (freshRecord "2026-10-11")).byValue
                   "teamwork" 0 + 3) } :=
  (recordRecognition_full_spec ⟨⟨defaultConfig, []⟩, ⟨defaultConfig, []⟩⟩
    ⟨"UGGG", "UAAA", "nice", "teamwork", 3, 0⟩ "2026-10-11"
    (by decide)).2.2.1

theorem getUserRecord_present {st : AppState} {uid : String} {r : UserRecord}
    (today : String) (h : lookup? st.users uid = some r) :
    getUserRecord st uid today = (r, st) := by
  unfold getUserRecord
  rw [h]

theorem getUserRecord_absent {st : AppState} {uid : String} (today : String)
    (h : lookup? st.users uid = none) :
    getUserRecord st uid today =
      (freshRecord today,
       { st with users := setKey st.users uid (freshRecord today) }) := by
  unfold getUserRecord
  rw [h]

/-- Claim C3: `canGivePoints` answers true exactly when the effective
record's `lastReset` is not today or `dailyGiven + points` fits the daily
limit, and it is a pure query on every stored record: it never resets
`dailyGiven` or `lastReset` (for a user already in the store the state is
returned untouched; in general every stored record is returned as is). -/
theorem canGivePoints_query_spec (st : AppState) (uid : String) (p : Nat)
    (today : String) :
    ((canGivePoints st uid p today).1 = true ↔
      ((getUserRecord st uid today).1.lastReset ≠ today ∨
       (getUserRecord st uid today).1.dailyGiven + p ≤ st.config.dailyLimit)) ∧
    (canGivePoints st uid p today).2 = (getUserRecord st uid today).2 ∧
    (∀ r : UserRecord, lookup? st.users uid = some r →
      (canGivePoints st uid p today).2 = st) ∧
    (∀ (u : String) (r : UserRecord), lookup? st.users u = some r →
      lookup? (canGivePoints st uid p today).2.users u = some r) := by
  refine ⟨?_, ?_, ?_, ?_⟩
  · unfold canGivePoints
    dsimp only
    split
    case isTrue h => simp [h]
    case isFalse h => simp [h]
  · unfold canGivePoints
    dsimp only
    split
    · rfl
    · rfl
  · intro r hr
    unfold canGivePoints
    dsimp only
    rw [getUserRecord_present today hr]
    split
    · rfl
    · rfl
  · intro u r hu
    unfold canGivePoints
    dsimp only
    cases hl : lookup? st.users uid with
    | some r0 =>
        rw [getUserRecord_present today hl]
        split
        · exact hu
        · exact hu
    | none =>
        rw [getUserRecord_absent today hl]
        have hne : u ≠ uid := by
          intro he
          rw [he, hl] at hu
          exact Option.noConfusion hu
        split
        · dsimp only
          rw [lookup_setKey_ne _ hne, hu]
        · dsimp only
          rw [lookup_setKey_ne _ hne, hu]

/-- Witness for `canGivePoints_query_spec`: a stored user with
`dailyGiven = 3` on today's window asking for 2 more points under the
default limit 5 is allowed, and the state is untouched. -/
theorem canGivePoints_query_spec_witness :
    (canGivePoints ⟨defaultConfig, [("UGGG", ⟨0, [], 3, "2026-10-11"⟩)]⟩
        "UGGG" 2 "2026-10-11").2 =
      ⟨defaultConfig, [("UGGG", ⟨0, [], 3, "2026-10-11"⟩)]⟩ ∧
    (canGivePoints ⟨defaultConfig, [("UGGG", ⟨0, [], 3, "2026-10-11"⟩)]⟩
        "UGGG" 2 "2026-10-11").1 = true :=
  ⟨(canGivePoints_query_spec ⟨defaultConfig, [("UGGG", ⟨0, [], 3, "2026-10-11"⟩)]⟩
      "UGGG" 2 "2026-10-11").2.2.1 ⟨0, [], 3, "2026-10-11"⟩ (by decide),
   (canGivePoints_query_spec ⟨defaultConfig, [("UGGG", ⟨0, [], 3, "2026-10-11"⟩)]⟩
      "UGGG" 2 "2026-10-11").1.mpr (Or.inr (by decide))⟩

/-- Claim C10: querying `canGivePoints` for an unknown user materializes a
fresh zero record for that user (dated today, so the answer is exactly
`points ≤ dailyLimit`), and leaves every other record unchanged. -/
theorem canGivePoints_missing_user (st : AppState) (uid : String) (p : Nat)
    (today : String) (h : lookup? st.users uid = none) :
    canGivePoints st uid p today =
      (decide (p ≤ st.config.dailyLimit),
       { st with users := setKey st.users uid (freshRecord today) }) ∧
    lookup? (canGivePoints st uid p today).2.users uid =
      some (freshRecord today) ∧
    (∀ u : String, u ≠ uid →
      lookup? (canGivePoints st uid p today).2.users u = lookup? st.users u) := by
  have hmain : canGivePoints st uid p today =
      (decide (p ≤ st.config.dailyLimit),
       { st with users := setKey st.users uid (freshRecord today) }) := by
    unfold canGivePoints
    rw [getUserRecord_absent today h]
    dsimp only
    rw [if_neg (by simp [freshRecord])]
    have : (freshRecord today).dailyGiven + p = p := by
      simp [freshRecord]
    rw [this]
  refine ⟨hmain, ?_, ?_⟩
  · rw [hmain]
    exact lookup_setKey_self _ _ _
  · intro u hu
    rw [hmain]
    exact lookup_setKey_ne _ hu _

/-- Witness for `canGivePoints_missing_user`: an unknown user asking for 3
points under the default limit 5. -/
theorem canGivePoints_missing_user_witness :
    canGivePoints ⟨defaultConfig, []⟩ "UNEW" 3 "2026-10-11" =
      (decide (3 ≤ defaultConfig.dailyLimit),
       { config := defaultConfig,
         users := setKey [] "UNEW" (freshRecord "2026-10-11") }) :=
  (canGivePoints_missing_user ⟨defaultConfig, []⟩ "UNEW" 3 "2026-10-11"
    (by decide)).1

/-- Claim C5, counterexample: redeeming a known reward as an unknown user
returns false but does not leave the user records unchanged — the
`getUserRecord` call inside `redeemReward` materializes a fresh zero
record for the user in memory. -/
theorem redeemReward_materializes_counterexample :
    (redeemRewardP ⟨⟨defaultConfig, []⟩, ⟨defaultConfig, []⟩⟩
        "UNEW" "Coffee Voucher" "2026-10-11" true).1 = Except.ok false ∧
    (redeemRewardP ⟨⟨defaultConfig, []⟩, ⟨defaultConfig, []⟩⟩
        "UNEW" "Coffee Voucher" "2026-10-11" true).2.mem.users =
      [("UNEW", freshRecord "2026-10-11")] ∧
    ([] : List (String × UserRecord)) ≠ [("UNEW", freshRecord "2026-10-11")] :=
  ⟨rfl, rfl, by decide⟩

/-- Claim C5, amended: `redeemReward` returns false without any state
change when the reward is unknown; returns false without touching any
existing record (and without persisting) when the user's total is below
the cost, though for a previously unknown user a fresh zero record is
materialized in memory; and otherwise deducts exactly the cost from the
user's total, persists, and returns true. -/
theorem redeemReward_amended :
    (∀ (svc : ServiceState) (uid n today : String) (saveOk : Bool),
      getReward svc.mem n = none →
      redeemRewardP svc uid n today saveOk = (Except.ok false, svc)) ∧
    (∀ (svc : ServiceState) (uid n today : String) (saveOk : Bool)
       (rw : Reward) (r : UserRecord),
      getReward svc.mem n = some rw → lookup? svc.mem.users uid = some r →
      r.total < rw.cost →
      redeemRewardP svc uid n today saveOk = (Except.ok false, svc)) ∧
    (∀ (svc : ServiceState) (uid n today : String) (saveOk : Bool)
       (rw : Reward),
      getReward svc.mem n = some rw → lookup? svc.mem.users uid = none →
      0 < rw.cost →
      redeemRewardP svc uid n today saveOk =
        (Except.ok false,
         { svc with mem :=
             { svc.mem with
               users := setKey svc.mem.users uid (freshRecord today) } })) ∧
    (∀ (svc : ServiceState) (uid n today : String) (rw : Reward)
       (r : UserRecord),
      getReward svc.mem n = some rw → lookup? svc.mem.users uid = some r →
      rw.cost ≤ r.total →
      redeemRewardP svc uid n today true =
        (Except.ok true,
         ⟨{ svc.mem with
            users := setKey svc.mem.users uid { r with total := r.total - rw.cost } },
          { svc.mem with
            users := setKey svc.mem.users uid { r with total := r.total - rw.cost } }⟩)) := by
  refine ⟨?_, ?_, ?_, ?_⟩
  · intro svc uid n today saveOk h
    unfold redeemRewardP
    rw [h]
  · intro svc uid n today saveOk rw0 r h1 h2 h3
    unfold redeemRewardP
    rw [h1, getUserRecord_present today h2]
    dsimp only
    rw [if_pos h3]
  · intro svc uid n today saveOk rw0 h1 h2 h3
    unfold redeemRewardP
    rw [h1, getUserRecord_absent today h2]
    dsimp only
    rw [if_pos (by simpa [freshRecord] using h3)]
  · intro svc uid n today rw0 r h1 h2 h3
    unfold redeemRewardP
    rw [h1, getUserRecord_present today h2]
    dsimp only
    rw [if_neg (by omega)]
    unfold getD
    rw [h2]
    rfl

/-- Witness for `redeemReward_amended`: with a 50-point Coffee reward, a
user with total 30 is refused and the state is untouched, and a user with
total 100 is charged down to 50 and the result is persisted. -/
theorem redeemReward_amended_witness :
    redeemRewardP
        ⟨⟨⟨5, [], [⟨"Coffee", 50⟩]⟩, [("UAAA", ⟨30, [], 0, "2026-10-11"⟩)]⟩,
         ⟨defaultConfig, []⟩⟩
        "UAAA" "Coffee" "2026-10-11" true =
      (Except.ok false,
       ⟨⟨⟨5, [], [⟨"Coffee", 50⟩]⟩, [("UAAA", ⟨30, [], 0, "2026-10-11"⟩)]⟩,
        ⟨defaultConfig, []⟩⟩) ∧
    redeemRewardP
        ⟨⟨⟨5, [], [⟨"Coffee", 50⟩]⟩, [("UAAA", ⟨100, [], 0, "2026-10-11"⟩)]⟩,
         ⟨defaultConfig, []⟩⟩
        "UAAA" "Coffee" "2026-10-11" true =
      (Except.ok true,
       ⟨⟨⟨5, [], [⟨"Coffee", 50⟩]⟩,
         setKey [("UAAA", ⟨100, [], 0, "2026-10-11"⟩)] "UAAA"
           ⟨100 - 50, [], 0, "2026-10-11"⟩⟩,
        ⟨⟨5, [], [⟨"Coffee", 50⟩]⟩,
         setKey [("UAAA", ⟨100, [], 0, "2026-10-11"⟩)] "UAAA"
           ⟨100 - 50, [], 0, "2026-10-11"⟩⟩⟩) :=
  ⟨redeemReward_amended.2.1 _ "UAAA" "Coffee" "2026-10-11" true
     ⟨"Coffee", 50⟩ ⟨30, [], 0, "2026-10-11"⟩ (by decide) (by decide) (by decide),
   redeemReward_amended.2.2.2 _ "UAAA" "Coffee" "2026-10-11"
     ⟨"Coffee", 50⟩ ⟨100, [], 0, "2026-10-11"⟩ (by decide) (by decide) (by decide)⟩

/-- Claim C9: when the durable save fails, every mutating ledger or config
operation surfaces the explicit save error instead of reporting success,
and at that point the in-memory state already carries the mutation (it
equals the in-memory state of the successful run) while the disk snapshot
is left stale.  For `redeemReward` and `addValue` the statement is guarded
by the operation actually reaching its save; the other operations save
unconditionally. -/
theorem saveFailure_propagates :
    (∀ (svc : ServiceState) (rec : Recognition) (today : String),
      recordRecognitionP svc rec today false =
        (Except.error "Failed to save data",
         ⟨(recordRecognitionP svc rec today true).2.mem, svc.disk⟩)) ∧
    (∀ (svc : ServiceState) (uid today : String),
      resetUserPointsP svc uid today false =
        (Except.error "Failed to save data",
         ⟨(resetUserPointsP svc uid today true).2.mem, svc.disk⟩)) ∧
    (∀ (svc : ServiceState) (uid n today : String) (rw : Reward)
       (r : UserRecord),
      getReward svc.mem n = some rw → lookup? svc.mem.users uid = some r →
      rw.cost ≤ r.total →
      redeemRewardP svc uid n today false =
        (Except.error "Failed to save data",
         ⟨{ svc.mem with
            users := setKey svc.mem.users uid { r with total := r.total - rw.cost } },
          svc.disk⟩)) ∧
    (∀ (svc : ServiceState) (limit : Nat),
      setDailyLimitP svc limit false =
        (Except.error "Failed to save data",
         ⟨(setDailyLimitP svc limit true).2.mem, svc.disk⟩)) ∧
    (∀ (svc : ServiceState) (v : String),
      ¬ svc.mem.config.values.contains (String.mk (trimChars (toLowerChars v.toList))) →
      addValueP svc v false =
        (Except.error "Failed to save data",
         ⟨(addValueP svc v true).2.mem, svc.disk⟩)) ∧
    (∀ (svc : ServiceState) (v : String),
      removeValueP svc v false =
        (Except.error "Failed to save data",
         ⟨(removeValueP svc v true).2.mem, svc.disk⟩)) ∧
    (∀ (svc : ServiceState) (nm : String) (c : Nat),
      addRewardP svc nm c false =
        (Except.error "Failed to save data",
         ⟨(addRewardP svc nm c true).2.mem, svc.disk⟩)) ∧
    (∀ (svc : ServiceState) (nm : String),
      removeRewardP svc nm false =
        (Except.error "Failed to save data",
         ⟨(removeRewardP svc nm true).2.mem, svc.disk⟩)) ∧
    (∀ svc : ServiceState,
      resetRewardsP svc false =
        (Except.error "Failed to save data",
         ⟨(resetRewardsP svc true).2.mem, svc.disk⟩)) ∧
    (∀ svc : ServiceState,
      resetValuesP svc false =
        (Except.error "Failed to save data",
         ⟨(resetValuesP svc true).2.mem, svc.disk⟩)) := by
  refine ⟨fun _ _ _ => rfl, fun _ _ _ => rfl, ?_, fun _ _ => rfl, ?_,
    fun _ _ => rfl, fun _ _ _ => rfl, fun _ _ => rfl, fun _ => rfl,
    fun _ => rfl⟩
  · intro svc uid n today rw0 r h1 h2 h3
    unfold redeemRewardP
    rw [h1, getUserRecord_present today h2]
    dsimp only
    rw [if_neg (by omega)]
    unfold getD
    rw [h2]
    rfl
  · intro svc v h
    unfold addValueP
    rw [if_neg h, if_neg h]
    rfl

/-- Witness for `saveFailure_propagates`, exercising the two guarded
conjuncts at concrete inputs: a redemption that reaches its save, and an
`addValue` of a value not yet configured. -/
theorem saveFailure_propagates_witness :
    redeemRewardP
        ⟨⟨defaultConfig, [("UAAA", ⟨100, [], 0, "2026-10-11"⟩)]⟩,
         ⟨defaultConfig, []⟩⟩
        "UAAA" "Coffee Voucher" "2026-10-11" false =
      (Except.error "Failed to save data",
       ⟨⟨defaultConfig,
         setKey [("UAAA", ⟨100, [], 0, "2026-10-11"⟩)] "UAAA"
           ⟨100 - 50, [], 0, "2026-10-11"⟩⟩,
        ⟨defaultConfig, []⟩⟩) ∧
    addValueP ⟨⟨defaultConfig, []⟩, ⟨defaultConfig, []⟩⟩ "kindness" false =
      (Except.error "Failed to save data",
       ⟨(addValueP ⟨⟨defaultConfig, []⟩, ⟨defaultConfig, []⟩⟩ "kindness" true).2.mem,
        ⟨defaultConfig, []⟩⟩) :=
  ⟨saveFailure_propagates.2.2.1
     ⟨⟨defaultConfig, [("UAAA", ⟨100, [], 0, "2026-10-11"⟩)]⟩,
      ⟨defaultConfig, []⟩⟩
     "UAAA" "Coffee Voucher" "2026-10-11" ⟨"Coffee Voucher", 50⟩
     ⟨100, [], 0, "2026-10-11"⟩ (by decide) (by decide) (by decide),
   saveFailure_propagates.2.2.2.2.1
     ⟨⟨defaultConfig, []⟩, ⟨defaultConfig, []⟩⟩ "kindness" (by decide)⟩

theorem emitUnit_mem {cfg : AppConfig} {giverId : String} {now : Nat}
    {us : List String} {pc : Nat} {rt : List Char} {vt : Option (List Char)}
    {r : Recognition} (h : r ∈ emitUnit cfg giverId now us pc rt vt) :
    r.giver = giverId ∧ r.receiver ≠ giverId ∧
    r.value = (match vt with
               | some t => String.mk (trimChars (toLowerChars t))
               | none => "general") ∧
    (r.value = "general" ∨ cfg.values.contains r.value) ∧
    r.points = pc := by
  unfold emitUnit at h
  rw [List.mem_filterMap] at h
  obtain ⟨recv, _, hsome⟩ := h
  by_cases hg : recv = giverId
  · rw [if_pos hg] at hsome
    exact absurd hsome (by simp)
  · rw [if_neg hg] at hsome
    dsimp only at hsome
    cases vt with
    | none =>
        dsimp only at hsome
        rw [if_neg (by simp)] at hsome
        have := Option.some.inj hsome
        subst this
        exact ⟨rfl, hg, rfl, Or.inl rfl, rfl⟩
    | some t =>
        dsimp only at hsome
        by_cases hval : String.mk (trimChars (toLowerChars t)) = "general"
        · rw [if_neg (by simp [hval])] at hsome
          have := Option.some.inj hsome
          subst this
          exact ⟨rfl, hg, rfl, Or.inl hval, rfl⟩
        · by_cases hcon : cfg.values.contains (String.mk (trimChars (toLowerChars t)))
          · rw [if_neg (by rw [hcon]; simp)] at hsome
            have := Option.some.inj hsome
            subst this
            exact ⟨rfl, hg, rfl, Or.inr hcon, rfl⟩
          · rw [if_pos (by simp only [Bool.and_eq_true, decide_eq_true_eq]; exact ⟨hval, hcon⟩)] at hsome
            exact absurd hsome (by simp)

theorem emitUnit_bad_tag {cfg : AppConfig} {giverId : String} {now : Nat}
    {us : List String} {pc : Nat} {rt : List Char} {t : List Char}
    (hval : String.mk (trimChars (toLowerChars t)) ≠ "general")
    (hcon : ¬ cfg.values.contains (String.mk (trimChars (toLowerChars t)))) :
    emitUnit cfg giverId now us pc rt (some t) = [] := by
  unfold emitUnit
  rw [List.filterMap_eq_nil_iff]
  intro recv _
  by_cases hg : recv = giverId
  · rw [if_pos hg]
  · rw [if_neg hg]
    dsimp only
    rw [if_pos (by simp only [Bool.and_eq_true, decide_eq_true_eq]; exact ⟨hval, hcon⟩)]

theorem parseRecognition_some {cfg : AppConfig} {text giverId : String}
    {now : Nat} {r : Recognition}
    (h : parseRecognition cfg text giverId now = some r) :
    r.giver = giverId ∧ r.receiver ≠ giverId ∧
    (r.value = "general" ∨ cfg.values.contains r.value) := by
  unfold parseRecognition at h
  cases hm : findSingleMatch text.toList with
  | none =>
      rw [hm] at h
      exact absurd h (by simp)
  | some m =>
      rw [hm] at h
      dsimp only at h
      split at h
      · exact absurd h (by simp)
      · split at h
        · exact absurd h (by simp)
        · split at h
          · exact absurd h (by simp)
          · split at h
            case isTrue hcond => exact absurd h (by simp)
            case isFalse hself hcond =>
                have := Option.some.inj h
                subst this
                refine ⟨rfl, hself, ?_⟩
                by_cases hgen : (match m.valueTag with
                    | some t => String.mk (trimChars (toLowerChars t))
                    | none => "general") = "general"
                · exact Or.inl hgen
                · right
                  by_contra hc
                  exact hcond (by simp only [Bool.and_eq_true, decide_eq_true_eq]; exact ⟨hc, hgen⟩)

/-- Claim C6, code bug: the grammar rule implemented by line 27 of
`recognitionService.ts` permits an empty reason when a `#tag` is present
(at least one of reason and tag must be non-empty), but line 31 then
unconditionally rejects every empty reason, making line 27's allowance
dead code.  A grammar-valid text with an empty reason and the known tag
`teamwork` therefore parses to nothing, while the same shape with a
one-character reason parses to exactly one candidate whose points equal
the `+` count. -/
theorem parseRecognition_empty_reason_divergence :
    parseRecognition defaultConfig "<@UAAA> ++ #teamwork" "UBBB" 0 = none ∧
    parseRecognition defaultConfig "<@UAAA> ++ x #teamwork" "UBBB" 0 =
      some ⟨"UBBB", "UAAA", "x", "teamwork", 2, 0⟩ :=
  ⟨rfl, rfl⟩

/-- Claim C7: no parser entry point ever emits a candidate whose receiver
is the giver; a group token resolving to two members, one of whom is the
giver, yields exactly the one candidate for the other member. -/
theorem parser_no_self_candidates :
    (∀ (cfg : AppConfig) (text giverId : String) (now : Nat) (r : Recognition),
      parseRecognition cfg text giverId now = some r → r.receiver ≠ giverId) ∧
    (∀ (cfg : AppConfig) (text giverId : String) (now : Nat) (r : Recognition),
      r ∈ parseRecognitions cfg text giverId now → r.receiver ≠ giverId) ∧
    (∀ (cfg : AppConfig) (text giverId : String)
       (resolve : String → List String) (now : Nat) (r : Recognition),
      r ∈ parseRecognitionsWithGroups cfg text giverId resolve now →
        r.receiver ≠ giverId) ∧
    parseRecognitionsWithGroups defaultConfig "<!subteam^SGRP1> ++ nice work"
      "UAAA" (fun _ => ["UAAA", "UBBB"]) 7 =
      [⟨"UAAA", "UBBB", "nice work", "general", 2, 7⟩] := by
  refine ⟨?_, ?_, ?_, rfl⟩
  · intro cfg text giverId now r h
    exact (parseRecognition_some h).2.1
  · intro cfg text giverId now r h
    unfold parseRecognitions at h
    rw [List.mem_flatMap] at h
    obtain ⟨u, _, hu⟩ := h
    exact (emitUnit_mem hu).2.1
  · intro cfg text giverId resolve now r h
    unfold parseRecognitionsWithGroups at h
    rw [List.mem_flatMap] at h
    obtain ⟨u, _, hu⟩ := h
    exact (emitUnit_mem hu).2.1

/-- Witness for `parser_no_self_candidates` at concrete parses through all
three entry points. -/
theorem parser_no_self_candidates_witness :
    Recognition.receiver ⟨"UBBB", "UAAA", "x", "teamwork", 2, 0⟩ ≠ "UBBB" ∧
    Recognition.receiver ⟨"UGGG", "UAAA", "good", "general", 3, 0⟩ ≠ "UGGG" ∧
    Recognition.receiver ⟨"UAAA", "UBBB", "nice work", "general", 2, 7⟩ ≠ "UAAA" :=
  ⟨parser_no_self_candidates.1 defaultConfig "<@UAAA> ++ x #teamwork" "UBBB" 0
     ⟨"UBBB", "UAAA", "x", "teamwork", 2, 0⟩ rfl,
   parser_no_self_candidates.2.1 defaultConfig "<@UAAA> +++ good" "UGGG" 0
     ⟨"UGGG", "UAAA", "good", "general", 3, 0⟩ (by decide),
   parser_no_self_candidates.2.2.1 defaultConfig "<!subteam^SGRP1> ++ nice work"
     "UAAA" (fun _ => ["UAAA", "UBBB"]) 7
     ⟨"UAAA", "UBBB", "nice work", "general", 2, 7⟩ (by decide)⟩

/-- Claim C8: a unit's `#tag` is lower-cased and trimmed; a unit whose tag
is neither a configured value nor `general` yields no candidates; every
emitted candidate carries either a configured value or `general`; a unit
with no tag gets the value `general`. -/
theorem tag_resolution_spec :
    (∀ (cfg : AppConfig) (text giverId : String) (now : Nat) (r : Recognition),
      parseRecognition cfg text giverId now = some r →
        (r.value = "general" ∨ cfg.values.contains r.value)) ∧
    (∀ (cfg : AppConfig) (text giverId : String) (now : Nat) (r : Recognition),
      r ∈ parseRecognitions cfg text giverId now →
        (r.value = "general" ∨ cfg.values.contains r.value)) ∧
    (∀ (cfg : AppConfig) (giverId : String) (now pc : Nat) (us : List String)
       (rt t : List Char) (r : Recognition),
      r ∈ emitUnit cfg giverId now us pc rt (some t) →
        r.value = String.mk (trimChars (toLowerChars t))) ∧
    (∀ (cfg : AppConfig) (giverId : String) (now pc : Nat) (us : List String)
       (rt t : List Char),
      String.mk (trimChars (toLowerChars t)) ≠ "general" →
      ¬ cfg.values.contains (String.mk (trimChars (toLowerChars t))) →
      emitUnit cfg giverId now us pc rt (some t) = []) ∧
    (∀ (cfg : AppConfig) (giverId : String) (now pc : Nat) (us : List String)
       (rt : List Char) (r : Recognition),
      r ∈ emitUnit cfg giverId now us pc rt none → r.value = "general") := by
  refine ⟨?_, ?_, ?_, ?_, ?_⟩
  · intro cfg text giverId now r h
    exact (parseRecognition_some h).2.2
  · intro cfg text giverId now r h
    unfold parseRecognitions at h
    rw [List.mem_flatMap] at h
    obtain ⟨u, _, hu⟩ := h
    exact (emitUnit_mem hu).2.2.2.1
  · intro cfg giverId now pc us rt t r h
    exact (emitUnit_mem h).2.2.1
  · intro cfg giverId now pc us rt t hval hcon
    exact emitUnit_bad_tag hval hcon
  · intro cfg giverId now pc us rt r h
    exact (emitUnit_mem h).2.2.1

/-- Witness for `tag_resolution_spec`: the upper-case tag `#TeamWork`
parses to the configured value `teamwork`, and the unknown tag `Bogus`
drops the whole unit. -/
theorem tag_resolution_spec_witness :
    (Recognition.value ⟨"UBBB", "UAAA", "x", "teamwork", 2, 0⟩ = "general" ∨
      defaultConfig.values.contains
        (Recognition.value ⟨"UBBB", "UAAA", "x", "teamwork", 2, 0⟩)) ∧
    emitUnit defaultConfig "UGGG" 0 ["UAAA"] 2 ['x']
      (some ['B', 'o', 'g', 'u', 's']) = [] :=
  ⟨tag_resolution_spec.1 defaultConfig "<@UAAA> ++ x #TeamWork" "UBBB" 0
     ⟨"UBBB", "UAAA", "x", "teamwork", 2, 0⟩ rfl,
   tag_resolution_spec.2.2.2.1 defaultConfig "UGGG" 0 2 ["UAAA"] ['x']
     ['B', 'o', 'g', 'u', 's'] (by decide) (by decide)⟩

theorem processList_cons_accept (g today : String) (svc : ServiceState)
    (r : Recognition) (rs : List Recognition)
    (hc : (canGivePoints svc.mem g r.points today).1 = true) :
    processList g today true svc (r :: rs) =
      (match processList g today true
          (recordRecognitionP
            { svc with mem := (canGivePoints svc.mem g r.points today).2 }
            r today true).2 rs with
       | (Except.ok acc, svc3) => (Except.ok (r :: acc), svc3)
       | (Except.error e, svc3) => (Except.error e, svc3)) := by
  simp only [processList]
  rw [if_neg (by simp [hc])]
  rfl

theorem processList_cons_reject (g today : String) (svc : ServiceState)
    (r : Recognition) (rs : List Recognition)
    (hc : (canGivePoints svc.mem g r.points today).1 = false) :
    processList g today true svc (r :: rs) =
      processList g today true
        { svc with mem := (canGivePoints svc.mem g r.points today).2 } rs := by
  simp only [processList]
  rw [if_pos (by simp [hc])]

theorem processList_ok (g today : String) (recs : List Recognition) :
    ∀ svc : ServiceState, ∃ acc out,
      processList g today true svc recs = (Except.ok acc, out) ∧
        List.Sublist acc recs := by
  induction recs with
  | nil => exact fun svc => ⟨[], svc, rfl, List.nil_sublist []⟩
  | cons r rs ih =>
      intro svc
      cases hc : (canGivePoints svc.mem g r.points today).1 with
      | false =>
          obtain ⟨acc, out, h1, h2⟩ :=
            ih { svc with mem := (canGivePoints svc.mem g r.points today).2 }
          exact ⟨acc, out,
            by rw [processList_cons_reject g today svc r rs hc, h1],
            List.Sublist.cons r h2⟩
      | true =>
          obtain ⟨acc, out, h1, h2⟩ :=
            ih (recordRecognitionP
              { svc with mem := (canGivePoints svc.mem g r.points today).2 }
              r today true).2
          exact ⟨r :: acc, out,
            by rw [processList_cons_accept g today svc r rs hc, h1],
            List.Sublist.cons₂ r h2⟩

/-- Claim C4: the orchestrator re-checks `canGivePoints` before each
candidate in parser emission order, drops denied candidates without an
error and returns accepted ones in order (the accepted list is an ordered
sublist of the parsed list and the result is never an error when saves
succeed); concretely, with the default daily limit 5, a same-day message
carrying candidates of 3, 3 and 2 points from one giver gets the first
accepted (`dailyGiven` 0 to 3), the second rejected (3+3 over 5), and the
third accepted (3+2 = 5), leaving `dailyGiven = 5`. -/
theorem processRecognitions_spec :
    (∀ (svc : ServiceState) (g today : String) (recs : List Recognition),
      ∃ acc out, processList g today true svc recs = (Except.ok acc, out) ∧
        List.Sublist acc recs) ∧
    parseRecognitions defaultConfig
      "<@UAAA> +++ good <@UBBB> +++ nice <@UCCC> ++ fine" "UGGG" 0 =
      [⟨"UGGG", "UAAA", "good", "general", 3, 0⟩,
       ⟨"UGGG", "UBBB", "nice", "general", 3, 0⟩,
       ⟨"UGGG", "UCCC", "fine", "general", 2, 0⟩] ∧
    (processRecognitions ⟨⟨defaultConfig, []⟩, ⟨defaultConfig, []⟩⟩
        "<@UAAA> +++ good <@UBBB> +++ nice <@UCCC> ++ fine" "UGGG"
        "2026-10-11" 0 true).1 =
      Except.ok [⟨"UGGG", "UAAA", "good", "general", 3, 0⟩,
                 ⟨"UGGG", "UCCC", "fine", "general", 2, 0⟩] ∧
    lookup? (processRecognitions ⟨⟨defaultConfig, []⟩, ⟨defaultConfig, []⟩⟩
        "<@UAAA> +++ good <@UBBB> +++ nice <@UCCC> ++ fine" "UGGG"
        "2026-10-11" 0 true).2.mem.users "UGGG" =
      some ⟨0, [], 5, "2026-10-11"⟩ :=
  ⟨fun svc g today recs => processList_ok g today recs svc, rfl, rfl, rfl⟩
